import Mathlib

/-!
Verification development for the layerwise-learning notebook
(`Layerwise learning - Image Classification.ipynb`).

The notebook builds a parametrized quantum circuit layer by layer.  A qnode
is a function that queues circuit operations in order; we embed it as a
function producing the list of queued operations together with an optional
runtime error (Python raises `IndexError` on an out-of-range list index).
Angles are modelled as rationals; the numeric training performed by the
external autodiff library (torch + pennylane) is abstracted as an opaque
function from initial weights to trained weights, since its internals are
external-library code, not part of this repository.
-/

namespace LayerwiseLearning

/-- Rotation-generator tag: `qml.RX`, `qml.RY` or `qml.RZ`, as drawn by
`set_random_gates`. -/
inductive GateChoice
  | RX
  | RY
  | RZ
deriving DecidableEq, Repr

/-- One operation queued on the pennylane device: a single-qubit rotation
with its generator tag, wire and angle, a CZ entangler on a wire pair, or
the final `expval(PauliZ)` readout. -/
inductive Op
  | rot (g : GateChoice) (wire : Nat) (angle : ℚ)
  | cz (w1 w2 : Nat)
  | expZ (wire : Nat)
deriving DecidableEq, Repr

/-- Result of running a piece of qnode body: the operations it queued, and
`some msg` if it raised a Python exception (later operations are then never
reached). -/
abbrev QRes := List Op × Option String

/-- Sequencing of two qnode-body fragments: if the first raised, the second
never runs; otherwise the queued operations are concatenated and the second
fragment's error status is reported. -/
def seqQ (a b : QRes) : QRes :=
  match a.2 with
  | some _ => a
  | none => (a.1 ++ b.1, b.2)

/-- Rotation loop of `apply_layer`: `for i in range(n_qubits):
gates[i](weights[i], wires=i)`.  The index `i` runs from `start` for `fuel`
steps; an out-of-range access on either list raises `IndexError` before the
rotation at that index is applied. -/
def rotLoop (gates : List GateChoice) (weights : List ℚ) : Nat → Nat → QRes
  | _, 0 => ([], none)
  | i, fuel + 1 =>
    match gates.get? i, weights.get? i with
    | some g, some w =>
      let r := rotLoop gates weights (i + 1) fuel
      (Op.rot g i w :: r.1, r.2)
    | _, _ => ([], some "IndexError")

/-- CZ ladder of `apply_layer`: `for i in range(n_qubits-1):
qml.CZ(wires=[i, i+1])`. -/
def czLadder (n_qubits : Nat) : List Op :=
  (List.range (n_qubits - 1)).map (fun i => Op.cz i (i + 1))

/-- Embedding of `apply_layer(gates, weights)` from the notebook.  It applies
`gates[i](weights[i], wires=i)` for `i` in `range(n_qubits)` (the module-level
qubit count, passed here explicitly), then the CZ ladder.  There is no length
check: the loop bound is `n_qubits`, not the length of either argument. -/
def apply_layer (n_qubits : Nat) (gates : List GateChoice) (weights : List ℚ) : QRes :=
  let r := rotLoop gates weights 0 n_qubits
  match r.2 with
  | none => (r.1 ++ czLadder n_qubits, none)
  | some e => (r.1, some e)

/-- The operation list `apply_layer` queues on in-range arguments: one
rotation per qubit index below `n_qubits`, then the CZ ladder. -/
def layer_ops (n_qubits : Nat) (gates : List GateChoice) (weights : List ℚ) : List Op :=
  (List.range n_qubits).map (fun i => Op.rot (gates.getD i .RX) i (weights.getD i 0))
    ++ czLadder n_qubits

/-- Embedding of `apply_frozen_layers` and of the per-layer loops inside
`train_partition`: `for i in range(len(gs)): apply_layer(gs[i], ws[i])`.
Indexing `ws[i]` past its end raises `IndexError`; entries of `ws` beyond
`len(gs)` are silently ignored. -/
def apply_layers (n_qubits : Nat) : List (List GateChoice) → List (List ℚ) → QRes
  | [], _ => ([], none)
  | _ :: _, [] => ([], some "IndexError")
  | g :: gs, w :: ws => seqQ (apply_layer n_qubits g w) (apply_layers n_qubits gs ws)

/-- The operation list a sequence of layers queues when every access is in
range: the per-layer operation blocks, in order. -/
def layers_ops (n_qubits : Nat) (gs : List (List GateChoice)) (ws : List (List ℚ)) : List Op :=
  ((gs.zip ws).map (fun p => layer_ops n_qubits p.1 p.2)).flatten

/-- The rotation list queued by the angle embedding: one `RX(inputs[i])` on
wire `i` per feature, in order. -/
def embed_ops (inputs : List ℚ) : List Op :=
  inputs.enum.map (fun p => Op.rot .RX p.1 p.2)

/-- Embedding of `qml.templates.AngleEmbedding(inputs, wires=range(n_qubits))`
with the default X rotation: one `RX(inputs[i])` on wire `i` per feature, in
order; pennylane rejects more features than wires. -/
def angle_embedding (n_qubits : Nat) (inputs : List ℚ) : QRes :=
  if inputs.length ≤ n_qubits then (embed_ops inputs, none)
  else ([], some "ValueError")

/-- The readout `return qml.expval(qml.PauliZ(n_qubits-1))` closing each
qnode, reached only when no earlier operation raised. -/
def readout (n_qubits : Nat) (r : QRes) : QRes :=
  match r.2 with
  | none => (r.1 ++ [Op.expZ (n_qubits - 1)], none)
  | some _ => r

/-- Embedding of `get_partition(layer_weights, partition, partition_size)`:
partition 1 is the slice `layer_weights[:partition_size]`, partition 2 is
`layer_weights[partition_size:]`; any other partition id falls through both
`if`s and returns Python's implicit `None`. -/
def get_partition {α : Type} (layer_weights : List α) (partition partition_size : Nat) :
    Option (List α) :=
  if partition = 1 then some (layer_weights.take partition_size)
  else if partition = 2 then some (layer_weights.drop partition_size)
  else none

/-- Embedding of `save_trained_partition`: slice assignment
`layer_weights[:partition_size] = trained_weights` replaces the first slice by
the whole of `trained_weights` whatever its length, and
`layer_weights[partition_size:] = trained_weights` likewise for the tail; any
other partition id leaves the list untouched. -/
def save_trained_partition {α : Type} (layer_weights trained_weights : List α)
    (partition partition_size : Nat) : List α :=
  if partition = 1 then trained_weights ++ layer_weights.drop partition_size
  else if partition = 2 then layer_weights.take partition_size ++ trained_weights
  else layer_weights

/-- Embedding of the qnode `train_partition(inputs, partition_weights)`: angle
embedding, then — depending on the module-level `partition` selector — the
trainable block over one slice of `layer_gates` and the frozen block over the
other, using the stored `layer_weights` for the frozen slice, and finally the
PauliZ readout on the last qubit. -/
def train_partition (n_qubits partition partition_size : Nat)
    (layer_gates : List (List GateChoice)) (layer_weights : List (List ℚ))
    (inputs : List ℚ) (partition_weights : List (List ℚ)) : QRes :=
  let emb := angle_embedding n_qubits inputs
  let body :=
    if partition = 1 then
      seqQ (apply_layers n_qubits (layer_gates.take partition_size) partition_weights)
        (apply_layers n_qubits (layer_gates.drop partition_size)
          (layer_weights.drop partition_size))
    else if partition = 2 then
      seqQ (apply_layers n_qubits (layer_gates.take partition_size)
          (layer_weights.take partition_size))
        (apply_layers n_qubits (layer_gates.drop partition_size) partition_weights)
    else ([], none)
  readout n_qubits (seqQ emb body)

/-- The zero initialization `init_method = nn.init.zeros_` of a trainable
block of shape `(n_layers_to_add, n_qubits)`. -/
def zero_init (n_layers_to_add n_qubits : Nat) : List (List ℚ) :=
  List.replicate n_layers_to_add (List.replicate n_qubits 0)

/-- Embedding of one iteration of the Phase I loop (the cell
`for step in range(n_layer_steps): ...`).  The step draws `new_gates`, builds
a TorchLayer whose only parameters are the zero-initialized `new_weights`
block of shape `(n_layers_to_add, n_qubits)`, trains those parameters — the
numeric Adam/BCE optimization inside torch and pennylane is abstracted as the
opaque function `train` from the initial block to the trained block; the
frozen `layer_gates`/`layer_weights` enter the qnode only as captured plain
lists and are never handed to the optimizer — and then executes
`layer_gates += new_gates; layer_weights += new_weights`. -/
def phase1_step (layer_gates : List (List GateChoice)) (layer_weights : List (List ℚ))
    (new_gates : List (List GateChoice)) (train : List (List ℚ) → List (List ℚ))
    (n_layers_to_add n_qubits : Nat) : List (List GateChoice) × List (List ℚ) :=
  let new_weights := train (zero_init n_layers_to_add n_qubits)
  (layer_gates ++ new_gates, layer_weights ++ new_weights)

/-- The Phase I loop run for `k` steps from the empty store, where `draw j`
is the gate-choice block `set_random_gates` produced at step `j` and
`train j` the step's training function. -/
def phase1_run (draw : Nat → List (List GateChoice))
    (train : Nat → List (List ℚ) → List (List ℚ))
    (n_layers_to_add n_qubits : Nat) : Nat → List (List GateChoice) × List (List ℚ)
  | 0 => ([], [])
  | k + 1 =>
    let prev := phase1_run draw train n_layers_to_add n_qubits k
    phase1_step prev.1 prev.2 (draw k) (train k) n_layers_to_add n_qubits

/-- The divisor used by both epoch loops: `batches = NUM_EXAMPLES //
batch_size`, a floor division fixed before the loop. -/
def batches_divisor (num_examples batch_size : Nat) : Nat :=
  num_examples / batch_size

/-- Embedding of one epoch of either training loop, given the losses the
batches produced: `running_loss` sums them and `avg_loss = running_loss /
batches`. -/
def epoch_avg_loss (losses : List ℚ) (num_examples batch_size : Nat) : ℚ :=
  losses.sum / (batches_divisor num_examples batch_size : ℚ)

/-- Number of batches the DataLoader actually yields for a sampler over
`num_examples` indices with the given batch size (`drop_last` defaults to
false, so a final short batch is yielded): `ceil(num_examples /
batch_size)`. -/
def num_iterated_batches (num_examples batch_size : Nat) : Nat :=
  (num_examples + batch_size - 1) / batch_size

/-- IEEE addition restricted to the distinction the claimed property needs:
`none` stands for a non-finite float value, and adding it to anything is
non-finite. -/
def addLoss : Option ℚ → Option ℚ → Option ℚ
  | some a, some b => some (a + b)
  | _, _ => none

/-- The epoch accumulator `running_loss = 0; for ...: running_loss +=
loss_evaluated` with non-finite-aware addition. -/
def epoch_running_loss (losses : List (Option ℚ)) : Option ℚ :=
  losses.foldl addLoss (some 0)

/-- One epoch of either training loop with non-finite batch losses tracked:
the code divides `running_loss` by the fixed `batches` count with no
finiteness check anywhere, so a non-finite sum yields a non-finite
average. -/
def epoch_avg_loss_nonfinite (losses : List (Option ℚ)) (num_examples batch_size : Nat) :
    Option ℚ :=
  (epoch_running_loss losses).map (fun s => s / (batches_divisor num_examples batch_size : ℚ))

/-- The thresholding `preds = (probs > 0.5).float()` applied to one
probability. -/
def predict (prob : ℚ) : ℚ :=
  if 1 / 2 < prob then 1 else 0

/-- Per-batch term of the accuracy cells: `torch.sum(preds == y).item() /
preds.shape[0]`, for a batch of (probability, label) pairs. -/
def batch_accuracy (batch : List (ℚ × ℚ)) : ℚ :=
  ((batch.filter (fun pl => predict pl.1 = pl.2)).length : ℚ) / (batch.length : ℚ)

/-- Embedding of the accuracy cells: the per-batch correct fractions are
accumulated over the loader and divided by `len(train_loader)`, the number of
batches — a macro-average across batches. -/
def train_accuracy (batches : List (List (ℚ × ℚ))) : ℚ :=
  (batches.map batch_accuracy).sum / (batches.length : ℚ)

section HelperLemmas

theorem rotLoop_in_range (gates : List GateChoice) (weights : List ℚ) :
    ∀ (fuel i : Nat), i + fuel ≤ gates.length → i + fuel ≤ weights.length →
      rotLoop gates weights i fuel =
        ((List.range' i fuel).map
          (fun j => Op.rot (gates.getD j .RX) j (weights.getD j 0)), none) := by
  intro fuel
  induction fuel with
  | zero => intro i _ _; simp [rotLoop]
  | succ f ih =>
    intro i hg hw
    have hgi : i < gates.length := by omega
    have hwi : i < weights.length := by omega
    have h1 : gates.get? i = some (gates.getD i .RX) := by
      rw [List.getD_eq_getD_get?]
      rw [List.get?_eq_get hgi]
      rfl
    have h2 : weights.get? i = some (weights.getD i 0) := by
      rw [List.getD_eq_getD_get?]
      rw [List.get?_eq_get hwi]
      rfl
    rw [rotLoop, h1, h2]
    simp only
    rw [ih (i + 1) (by omega) (by omega)]
    simp [List.range'_succ]

theorem rotLoop_out_of_range (gates : List GateChoice) (weights : List ℚ) :
    ∀ (fuel i : Nat), min gates.length weights.length < i + fuel →
      i ≤ min gates.length weights.length →
      rotLoop gates weights i fuel =
        ((List.range' i (min gates.length weights.length - i)).map
          (fun j => Op.rot (gates.getD j .RX) j (weights.getD j 0)),
         some "IndexError") := by
  intro fuel
  induction fuel with
  | zero => intro i h1 h2; omega
  | succ f ih =>
    intro i h1 h2
    rcases Nat.lt_or_ge i (min gates.length weights.length) with hlt | hge
    · have hgi : i < gates.length := by omega
      have hwi : i < weights.length := by omega
      have hg1 : gates.get? i = some (gates.getD i .RX) := by
        rw [List.getD_eq_getD_get?]
        rw [List.get?_eq_get hgi]
        rfl
      have hw1 : weights.get? i = some (weights.getD i 0) := by
        rw [List.getD_eq_getD_get?]
        rw [List.get?_eq_get hwi]
        rfl
      rw [rotLoop, hg1, hw1]
      simp only
      rw [ih (i + 1) (by omega) (by omega)]
      have hstep : min gates.length weights.length - i =
          (min gates.length weights.length - (i + 1)) + 1 := by omega
      rw [hstep, List.range'_succ]
      simp
    · have him : i = min gates.length weights.length := by omega
      have hnone : gates.get? i = none ∨ weights.get? i = none := by
        rcases Nat.le_total gates.length weights.length with hle | hle
        · left
          rw [List.get?_eq_none]
          omega
        · right
          rw [List.get?_eq_none]
          omega
      rw [rotLoop]
      rcases hnone with hn | hn
      · rw [hn]
        simp [him]
      · rw [hn]
        rcases h : gates.get? i with _ | g
        · simp [him]
        · simp [him]

theorem apply_layer_in_range (n : Nat) (gates : List GateChoice) (weights : List ℚ)
    (hg : n ≤ gates.length) (hw : n ≤ weights.length) :
    apply_layer n gates weights = (layer_ops n gates weights, none) := by
  unfold apply_layer
  rw [rotLoop_in_range gates weights n 0 (by omega) (by omega)]
  simp [layer_ops, List.range_eq_range']

theorem apply_layers_in_range (n : Nat) :
    ∀ (gs : List (List GateChoice)) (ws : List (List ℚ)),
      List.Forall₂ (fun g w => n ≤ g.length ∧ n ≤ w.length) gs ws →
      apply_layers n gs ws = (layers_ops n gs ws, none) := by
  intro gs ws h
  induction h with
  | nil => simp [apply_layers, layers_ops]
  | cons hgw _ ih =>
    rw [apply_layers, ih, apply_layer_in_range _ _ _ hgw.1 hgw.2]
    simp [seqQ, layers_ops]

theorem forall₂_of_lengths (n : Nat) (gs : List (List GateChoice)) (ws : List (List ℚ))
    (hl : gs.length = ws.length) (hg : ∀ g ∈ gs, n ≤ g.length)
    (hw : ∀ w ∈ ws, n ≤ w.length) :
    List.Forall₂ (fun g w => n ≤ g.length ∧ n ≤ w.length) gs ws := by
  rw [List.forall₂_iff_zip]
  exact ⟨hl, fun hab => ⟨hg _ (List.of_mem_zip hab).1, hw _ (List.of_mem_zip hab).2⟩⟩

theorem sum_map_all_one {α : Type} (f : α → ℚ) :
    ∀ (l : List α), (∀ x ∈ l, f x = 1) → (l.map f).sum = l.length := by
  intro l
  induction l with
  | nil => simp
  | cons a l ih =>
    intro h
    have ha := h a (by simp)
    simp only [List.map_cons, List.sum_cons, List.length_cons, ha]
    rw [ih (fun x hx => h x (by simp [hx]))]
    push_cast
    ring

end HelperLemmas

/-- C5: for every parameter store and every valid split point `s` in
`[0, store length]`, `get_partition store 1 s ++ get_partition store 2 s`
equals the original store exactly; the two partitions are disjoint and
together cover the store exactly once (their lengths are `s` and
`store.length - s`). -/
theorem get_partition_cover (store : List (List ℚ)) (s : Nat)
    (h : s ≤ store.length) :
    ∃ p1 p2, get_partition store 1 s = some p1 ∧ get_partition store 2 s = some p2 ∧
      p1 ++ p2 = store ∧ p1.length = s ∧ p2.length = store.length - s := by
  refine ⟨store.take s, store.drop s, rfl, rfl, List.take_append_drop s store, ?_, ?_⟩
  · simp [List.length_take]
    omega
  · simp [List.length_drop]

/-- Witness for C5 at a concrete store and split point. -/
theorem get_partition_cover_witness :
    1 ≤ ([[(1:ℚ)], [2], [3]] : List (List ℚ)).length ∧
    ∃ p1 p2, get_partition ([[(1:ℚ)], [2], [3]] : List (List ℚ)) 1 1 = some p1 ∧
      get_partition ([[(1:ℚ)], [2], [3]] : List (List ℚ)) 2 1 = some p2 ∧
      p1 ++ p2 = [[(1:ℚ)], [2], [3]] ∧ p1.length = 1 ∧
      p2.length = ([[(1:ℚ)], [2], [3]] : List (List ℚ)).length - 1 :=
  ⟨by decide, get_partition_cover [[1], [2], [3]] 1 (by decide)⟩

/-- C6 counterexample: with a 2-layer store, `partition_size = 1`, partition
id 1 and a 2-entry trained-weights list, saving and then reading the
partition back does not return the just-saved values — the claim's universal
quantification over every trained-weights list fails. -/
theorem save_get_roundtrip_cex :
    get_partition
        (save_trained_partition ([[(1:ℚ)], [2]] : List (List ℚ)) [[3], [4]] 1 1) 1 1 ≠
      some [[(3:ℚ)], [4]] := by decide

/-- C6 amended: `save_trained_partition` followed by `get_partition` with the
same partition id and partition size returns exactly the just-saved values
provided the saved list matches the replaced slice — for partition 1 the
trained-weights list must have exactly `partition_size` entries, and for
partition 2 it suffices that `partition_size ≤ store length`. -/
theorem save_get_roundtrip (store tw : List (List ℚ)) (s : Nat) :
    (tw.length = s →
      get_partition (save_trained_partition store tw 1 s) 1 s = some tw) ∧
    (s ≤ store.length →
      get_partition (save_trained_partition store tw 2 s) 2 s = some tw) := by
  constructor
  · intro h
    subst h
    simp [get_partition, save_trained_partition, List.take_left]
  · intro h
    have hlen : (store.take s).length = s := by
      simp [List.length_take]
      omega
    have e1 : save_trained_partition store tw 2 s = store.take s ++ tw := by
      simp [save_trained_partition]
    have e2 : get_partition (store.take s ++ tw) 2 s =
        some ((store.take s ++ tw).drop s) := by
      simp [get_partition]
    rw [e1, e2, List.drop_left' hlen]

/-- Witness for C6 (amended) at concrete stores, for both partition ids. -/
theorem save_get_roundtrip_witness :
    (([[(5:ℚ)]] : List (List ℚ)).length = 1 ∧
      get_partition
          (save_trained_partition ([[(1:ℚ)], [2]] : List (List ℚ)) [[5]] 1 1) 1 1 =
        some [[(5:ℚ)]]) ∧
    (1 ≤ ([[(1:ℚ)], [2]] : List (List ℚ)).length ∧
      get_partition
          (save_trained_partition ([[(1:ℚ)], [2]] : List (List ℚ)) [[5]] 2 1) 2 1 =
        some [[(5:ℚ)]]) :=
  ⟨⟨by decide, (save_get_roundtrip [[1], [2]] [[5]] 1).1 (by decide)⟩,
   ⟨by decide, (save_get_roundtrip [[1], [2]] [[5]] 1).2 (by decide)⟩⟩

/-- C10: `save_trained_partition` does no length validation — for a valid
`partition_size` it preserves the store's length exactly when the replacement
has the length of the replaced slice (`partition_size` entries for partition
1, `store length - partition_size` for partition 2), silently changing the
store's length otherwise, and for any partition id other than 1 or 2 it
silently leaves the store unchanged. -/
theorem save_trained_partition_length (store tw : List (List ℚ)) (s : Nat)
    (h : s ≤ store.length) :
    ((save_trained_partition store tw 1 s).length = store.length ↔ tw.length = s) ∧
    ((save_trained_partition store tw 2 s).length = store.length ↔
      tw.length = store.length - s) ∧
    (∀ p, p ≠ 1 → p ≠ 2 → save_trained_partition store tw p s = store) := by
  refine ⟨?_, ?_, ?_⟩
  · have e : save_trained_partition store tw 1 s = tw ++ store.drop s := by
      simp [save_trained_partition]
    rw [e]
    simp only [List.length_append, List.length_drop]
    omega
  · have e : save_trained_partition store tw 2 s = store.take s ++ tw := by
      simp [save_trained_partition]
    rw [e]
    simp only [List.length_append, List.length_take]
    omega
  · intro p h1 h2
    simp [save_trained_partition, h1, h2]

/-- Witness for C10 at a concrete store: replacement of matching length
preserves the length, a longer replacement grows the store, and partition id
0 leaves it untouched. -/
theorem save_trained_partition_length_witness :
    1 ≤ ([[(1:ℚ)], [2]] : List (List ℚ)).length ∧
    ((save_trained_partition ([[(1:ℚ)], [2]] : List (List ℚ)) [[5]] 1 1).length =
        ([[(1:ℚ)], [2]] : List (List ℚ)).length ↔ ([[(5:ℚ)]] : List (List ℚ)).length = 1) ∧
    ((save_trained_partition ([[(1:ℚ)], [2]] : List (List ℚ)) [[5]] 2 1).length =
        ([[(1:ℚ)], [2]] : List (List ℚ)).length ↔
      ([[(5:ℚ)]] : List (List ℚ)).length = ([[(1:ℚ)], [2]] : List (List ℚ)).length - 1) ∧
    ∀ p, p ≠ 1 → p ≠ 2 →
      save_trained_partition ([[(1:ℚ)], [2]] : List (List ℚ)) [[5]] p 1 = [[(1:ℚ)], [2]] :=
  ⟨by decide, save_trained_partition_length [[1], [2]] [[5]] 1 (by decide)⟩

/-- C1 counterexample: at the notebook's configuration (`NUM_EXAMPLES =
1000`, `batch_size = 128`) the loader yields 8 batches per epoch, but the
recorded average divides the summed batch losses by `1000 // 128 = 7`, so it
differs from the sum divided by the number of batches iterated. -/
theorem epoch_avg_loss_cex :
    num_iterated_batches 1000 128 = 8 ∧
    epoch_avg_loss (List.replicate 8 (1:ℚ)) 1000 128 ≠
      (List.replicate 8 (1:ℚ)).sum / (num_iterated_batches 1000 128 : ℚ) := by
  constructor
  · decide
  · norm_num [epoch_avg_loss, batches_divisor, num_iterated_batches]

/-- C1 amended: the recorded per-epoch average loss is the sum of the
per-batch losses divided by the fixed `batches = NUM_EXAMPLES // batch_size`
count; this equals the sum divided by the number of batches actually iterated
whenever `batch_size` divides `NUM_EXAMPLES` (so the fixed count and the
iterated count agree). -/
theorem epoch_avg_loss_amended (losses : List ℚ) (N b : Nat) (hb : 0 < b)
    (hdvd : b ∣ N) (hlen : losses.length = num_iterated_batches N b) :
    epoch_avg_loss losses N b = losses.sum / (losses.length : ℚ) := by
  obtain ⟨k, rfl⟩ := hdvd
  have h1 : num_iterated_batches (b * k) b = k := by
    have e : b * k + b - 1 = (b - 1) + b * k := by omega
    rw [num_iterated_batches, e, Nat.add_mul_div_left _ _ hb,
      Nat.div_eq_of_lt (by omega)]
    omega
  have h2 : batches_divisor (b * k) b = k := Nat.mul_div_cancel_left k hb
  rw [epoch_avg_loss, h2, hlen, h1]

/-- Witness for C1 (amended) at `NUM_EXAMPLES = 4`, `batch_size = 2`: the
divisor and the iterated batch count agree and the average is the sum over
the two batch losses divided by 2. -/
theorem epoch_avg_loss_amended_witness :
    0 < 2 ∧ 2 ∣ 4 ∧ ([(1:ℚ), 2]).length = num_iterated_batches 4 2 ∧
    epoch_avg_loss [(1:ℚ), 2] 4 2 = ([(1:ℚ), 2]).sum / (([(1:ℚ), 2]).length : ℚ) :=
  ⟨by decide, by decide, by decide,
   epoch_avg_loss_amended [1, 2] 4 2 (by decide) (by decide) (by decide)⟩

/-- C8: the epoch loops accumulate `running_loss += loss_evaluated` with no
finiteness check and divide by the fixed batch count, so a non-finite batch
loss is propagated into the recorded per-epoch average instead of aborting
the step — the code contradicts the spec's required abort-on-non-finite
behavior. -/
theorem nonfinite_loss_propagates :
    epoch_avg_loss_nonfinite [some 1, none, some 2] 1000 128 = none := rfl

/-- C9: the accuracy cells compute the macro-average over batches of the
per-batch correct fraction, with each prediction `sigmoid(readout)`
thresholded at 0.5; the result is 1 when every prediction equals its label in
every batch, and 0 when every prediction is wrong. -/
theorem train_accuracy_spec (batches : List (List (ℚ × ℚ)))
    (hne : batches ≠ []) (hbne : ∀ b ∈ batches, b ≠ []) :
    train_accuracy batches = (batches.map batch_accuracy).sum / (batches.length : ℚ) ∧
    ((∀ b ∈ batches, ∀ pl ∈ b, predict pl.1 = pl.2) → train_accuracy batches = 1) ∧
    ((∀ b ∈ batches, ∀ pl ∈ b, predict pl.1 ≠ pl.2) → train_accuracy batches = 0) := by
  refine ⟨rfl, ?_, ?_⟩
  · intro hall
    have hone : ∀ b ∈ batches, batch_accuracy b = 1 := by
      intro b hb
      have hf : b.filter (fun pl => predict pl.1 = pl.2) = b :=
        List.filter_eq_self.mpr (fun pl hpl => by
          simp [hall b hb pl hpl])
      have hlen : (b.length : ℚ) ≠ 0 := by
        have : b.length ≠ 0 := by
          simpa [List.length_eq_zero] using hbne b hb
        exact_mod_cast this
      rw [batch_accuracy, hf, div_self hlen]
    have hsum : (batches.map batch_accuracy).sum = batches.length :=
      sum_map_all_one batch_accuracy batches hone
    have hlenb : (batches.length : ℚ) ≠ 0 := by
      have : batches.length ≠ 0 := by
        simpa [List.length_eq_zero] using hne
      exact_mod_cast this
    rw [train_accuracy, hsum, div_self hlenb]
  · intro hall
    have hzero : ∀ b ∈ batches, batch_accuracy b = 0 := by
      intro b hb
      have hf : b.filter (fun pl => predict pl.1 = pl.2) = [] :=
        List.filter_eq_nil_iff.mpr (fun pl hpl => by
          simp [hall b hb pl hpl])
      rw [batch_accuracy, hf]
      simp
    have hsum : (batches.map batch_accuracy).sum = 0 :=
      List.sum_eq_zero (fun x hx => by
        obtain ⟨b, hb, rfl⟩ := List.mem_map.mp hx
        exact hzero b hb)
    rw [train_accuracy, hsum, zero_div]

/-- Witness for C9: two all-correct batches give accuracy 1. -/
theorem train_accuracy_spec_witness :
    (([[((1:ℚ), 1)], [((0:ℚ), 0), ((1:ℚ), 1)]] : List (List (ℚ × ℚ))) ≠ [] ∧
      ∀ b ∈ ([[((1:ℚ), 1)], [((0:ℚ), 0), ((1:ℚ), 1)]] : List (List (ℚ × ℚ))), b ≠ []) ∧
    train_accuracy ([[((1:ℚ), 1)], [((0:ℚ), 0), ((1:ℚ), 1)]] : List (List (ℚ × ℚ))) = 1 :=
  ⟨⟨by simp, by simp⟩,
   (train_accuracy_spec [[(1, 1)], [(0, 0), (1, 1)]] (by simp) (by simp)).2.1
     (by
       norm_num [predict]
       rintro a b (⟨rfl, rfl⟩ | ⟨rfl, rfl⟩) <;> norm_num)⟩

/-- C3: one Phase I step from any pre-populated store leaves every
pre-existing layer's gate choices and angles unchanged, appends exactly
`n_layers_to_add` new layers (the drawn gate blocks and the trained weights,
which the optimizer alone produced from the zero-initialized block), and the
new angles are all zero before training. -/
theorem phase1_step_frame (lg : List (List GateChoice)) (lw : List (List ℚ))
    (ng : List (List GateChoice)) (train : List (List ℚ) → List (List ℚ))
    (a n : Nat) (hg : ng.length = a) (ht : (train (zero_init a n)).length = a) :
    (phase1_step lg lw ng train a n).1.take lg.length = lg ∧
    (phase1_step lg lw ng train a n).2.take lw.length = lw ∧
    (phase1_step lg lw ng train a n).1.length = lg.length + a ∧
    (phase1_step lg lw ng train a n).2.length = lw.length + a ∧
    (phase1_step lg lw ng train a n).1.drop lg.length = ng ∧
    (phase1_step lg lw ng train a n).2.drop lw.length = train (zero_init a n) ∧
    (∀ w ∈ zero_init a n, ∀ x ∈ w, x = 0) := by
  refine ⟨?_, ?_, ?_, ?_, ?_, ?_, ?_⟩
  · exact List.take_left lg ng
  · exact List.take_left lw (train (zero_init a n))
  · simp [phase1_step, hg]
  · simp [phase1_step, ht]
  · exact List.drop_left lg ng
  · exact List.drop_left lw (train (zero_init a n))
  · intro w hw x hx
    have := List.eq_of_mem_replicate hw
    subst this
    exact List.eq_of_mem_replicate hx

/-- Witness for C3: the spec's end-to-end scenario shape — `n_qubits = 2`,
one pre-populated layer, one Phase I step with `n_layers_to_add = 1`. -/
theorem phase1_step_frame_witness :
    ([[GateChoice.RZ, GateChoice.RX]].length = 1 ∧
      ((fun w => w) (zero_init 1 2)).length = 1) ∧
    (phase1_step [[GateChoice.RX, GateChoice.RY]] [[(1:ℚ), 2]]
        [[GateChoice.RZ, GateChoice.RX]] (fun w => w) 1 2).1.take 1 =
      [[GateChoice.RX, GateChoice.RY]] ∧
    (phase1_step [[GateChoice.RX, GateChoice.RY]] [[(1:ℚ), 2]]
        [[GateChoice.RZ, GateChoice.RX]] (fun w => w) 1 2).2.take 1 = [[(1:ℚ), 2]] ∧
    (phase1_step [[GateChoice.RX, GateChoice.RY]] [[(1:ℚ), 2]]
        [[GateChoice.RZ, GateChoice.RX]] (fun w => w) 1 2).1.length = 1 + 1 ∧
    (phase1_step [[GateChoice.RX, GateChoice.RY]] [[(1:ℚ), 2]]
        [[GateChoice.RZ, GateChoice.RX]] (fun w => w) 1 2).2.length = 1 + 1 ∧
    (phase1_step [[GateChoice.RX, GateChoice.RY]] [[(1:ℚ), 2]]
        [[GateChoice.RZ, GateChoice.RX]] (fun w => w) 1 2).1.drop 1 =
      [[GateChoice.RZ, GateChoice.RX]] ∧
    (phase1_step [[GateChoice.RX, GateChoice.RY]] [[(1:ℚ), 2]]
        [[GateChoice.RZ, GateChoice.RX]] (fun w => w) 1 2).2.drop 1 =
      (fun w => w) (zero_init 1 2) ∧
    (∀ w ∈ zero_init 1 2, ∀ x ∈ w, x = 0) :=
  ⟨⟨by decide, by decide⟩,
   phase1_step_frame [[GateChoice.RX, GateChoice.RY]] [[(1:ℚ), 2]]
     [[GateChoice.RZ, GateChoice.RX]] (fun w => w) 1 2 (by decide) (by decide)⟩

/-- C4: after `k` completed Phase I steps the store holds exactly
`k * n_layers_to_add` layers in both `layer_gates` and `layer_weights`, and
every layer's angle sequence has exactly `n_qubits` entries, provided every
gate draw has `n_layers_to_add` blocks and every step's training preserves
the `(n_layers_to_add, n_qubits)` shape of its zero-initialized block. -/
theorem phase1_run_invariant (draw : Nat → List (List GateChoice))
    (train : Nat → List (List ℚ) → List (List ℚ)) (a n : Nat)
    (hd : ∀ j, (draw j).length = a)
    (ht : ∀ j, (train j (zero_init a n)).length = a ∧
      ∀ w ∈ train j (zero_init a n), w.length = n) (k : Nat) :
    (phase1_run draw train a n k).1.length = k * a ∧
    (phase1_run draw train a n k).2.length = k * a ∧
    ∀ w ∈ (phase1_run draw train a n k).2, w.length = n := by
  induction k with
  | zero => simp [phase1_run]
  | succ k ih =>
    refine ⟨?_, ?_, ?_⟩
    · show ((phase1_run draw train a n k).1 ++ draw k).length = (k + 1) * a
      rw [List.length_append, ih.1, hd k]
      ring
    · show ((phase1_run draw train a n k).2 ++ train k (zero_init a n)).length =
        (k + 1) * a
      rw [List.length_append, ih.2.1, (ht k).1]
      ring
    · intro w hw
      rcases List.mem_append.mp hw with h | h
      · exact ih.2.2 w h
      · exact (ht k).2 w h

/-- Witness for C4 at a concrete two-step run with `n_layers_to_add = 1`,
`n_qubits = 2`. -/
theorem phase1_run_invariant_witness :
    ((∀ j : Nat, ((fun _ : Nat => [[GateChoice.RX, GateChoice.RY]]) j).length = 1) ∧
      (∀ j : Nat, (((fun _ : Nat => fun w : List (List ℚ) => w) j)
          (zero_init 1 2)).length = 1 ∧
        ∀ w ∈ ((fun _ : Nat => fun w : List (List ℚ) => w) j) (zero_init 1 2),
          w.length = 2)) ∧
    (phase1_run (fun _ => [[GateChoice.RX, GateChoice.RY]])
        (fun _ => fun w => w) 1 2 2).1.length = 2 * 1 ∧
    (phase1_run (fun _ => [[GateChoice.RX, GateChoice.RY]])
        (fun _ => fun w => w) 1 2 2).2.length = 2 * 1 ∧
    ∀ w ∈ (phase1_run (fun _ => [[GateChoice.RX, GateChoice.RY]])
        (fun _ => fun w => w) 1 2 2).2, w.length = 2 :=
  ⟨⟨by intro j; simp, by intro j; constructor <;> simp [zero_init]⟩,
   phase1_run_invariant (fun _ => [[GateChoice.RX, GateChoice.RY]])
     (fun _ => fun w => w) 1 2 (by intro j; simp)
     (by intro j; constructor <;> simp [zero_init]) 2⟩

/-- C2: for every input and trainable block of the right shape, the Phase II
partitioned circuit with selector 1 queues the encoding, then the trainable
block over the gate choices of the first `partition_size` layers, then the
remaining layers with their stored frozen angles; with selector 2 it queues
the encoding, then the first `partition_size` layers with stored frozen
angles, then the trainable block over the remaining layers' gate choices; in
both cases the gate-choice sequences used are exactly the slices of the
store fixed during Phase I. -/
theorem train_partition_structure (n s : Nat) (lg : List (List GateChoice))
    (lw : List (List ℚ)) (inputs : List ℚ) (pw : List (List ℚ))
    (hs : s ≤ lg.length) (hlen : lg.length = lw.length)
    (hg : ∀ g ∈ lg, g.length = n) (hw : ∀ w ∈ lw, w.length = n)
    (hin : inputs.length ≤ n) (hpwn : ∀ w ∈ pw, w.length = n) :
    (pw.length = s →
      train_partition n 1 s lg lw inputs pw =
        (embed_ops inputs ++ layers_ops n (lg.take s) pw ++
          layers_ops n (lg.drop s) (lw.drop s) ++ [Op.expZ (n - 1)], none)) ∧
    (pw.length = lg.length - s →
      train_partition n 2 s lg lw inputs pw =
        (embed_ops inputs ++ layers_ops n (lg.take s) (lw.take s) ++
          layers_ops n (lg.drop s) pw ++ [Op.expZ (n - 1)], none)) := by
  have hemb : angle_embedding n inputs = (embed_ops inputs, none) := by
    simp [angle_embedding, hin]
  constructor
  · intro hpl
    have h1 : apply_layers n (lg.take s) pw = (layers_ops n (lg.take s) pw, none) := by
      refine apply_layers_in_range n _ _ (forall₂_of_lengths n _ _ ?_ ?_ ?_)
      · simp [List.length_take]
        omega
      · intro g hgm
        exact le_of_eq (hg g (List.mem_of_mem_take hgm)).symm
      · intro w hwm
        exact le_of_eq (hpwn w hwm).symm
    have h2 : apply_layers n (lg.drop s) (lw.drop s) =
        (layers_ops n (lg.drop s) (lw.drop s), none) := by
      refine apply_layers_in_range n _ _ (forall₂_of_lengths n _ _ ?_ ?_ ?_)
      · simp [List.length_drop, hlen]
      · intro g hgm
        exact le_of_eq (hg g (List.mem_of_mem_drop hgm)).symm
      · intro w hwm
        exact le_of_eq (hw w (List.mem_of_mem_drop hwm)).symm
    simp [train_partition, hemb, h1, h2, seqQ, readout, List.append_assoc]
  · intro hpl
    have h1 : apply_layers n (lg.take s) (lw.take s) =
        (layers_ops n (lg.take s) (lw.take s), none) := by
      refine apply_layers_in_range n _ _ (forall₂_of_lengths n _ _ ?_ ?_ ?_)
      · simp [List.length_take, hlen]
      · intro g hgm
        exact le_of_eq (hg g (List.mem_of_mem_take hgm)).symm
      · intro w hwm
        exact le_of_eq (hw w (List.mem_of_mem_take hwm)).symm
    have h2 : apply_layers n (lg.drop s) pw = (layers_ops n (lg.drop s) pw, none) := by
      refine apply_layers_in_range n _ _ (forall₂_of_lengths n _ _ ?_ ?_ ?_)
      · simp [List.length_drop]
        omega
      · intro g hgm
        exact le_of_eq (hg g (List.mem_of_mem_drop hgm)).symm
      · intro w hwm
        exact le_of_eq (hpwn w hwm).symm
    simp [train_partition, hemb, h1, h2, seqQ, readout, List.append_assoc]

/-- Witness for C2: a 2-qubit, 2-layer store split at 1, selector 1, with a
concrete input and trainable block. -/
theorem train_partition_structure_witness :
    (1 ≤ ([[GateChoice.RX, GateChoice.RY], [GateChoice.RZ, GateChoice.RX]] :
        List (List GateChoice)).length ∧
      ([(5:ℚ), 6] : List ℚ).length ≤ 2 ∧ ([[(5:ℚ), 6]] : List (List ℚ)).length = 1) ∧
    train_partition 2 1 1 [[GateChoice.RX, GateChoice.RY], [GateChoice.RZ, GateChoice.RX]]
        [[(1:ℚ), 2], [3, 4]] [9, 9] [[5, 6]] =
      (embed_ops [9, 9] ++
        layers_ops 2 ([[GateChoice.RX, GateChoice.RY],
          [GateChoice.RZ, GateChoice.RX]].take 1) [[(5:ℚ), 6]] ++
        layers_ops 2 ([[GateChoice.RX, GateChoice.RY],
          [GateChoice.RZ, GateChoice.RX]].drop 1) (([[(1:ℚ), 2], [3, 4]]).drop 1) ++
        [Op.expZ (2 - 1)], none) :=
  ⟨⟨by decide, by decide, by decide⟩,
   (train_partition_structure 2 1 [[GateChoice.RX, GateChoice.RY],
       [GateChoice.RZ, GateChoice.RX]] [[(1:ℚ), 2], [3, 4]] [9, 9] [[5, 6]]
     (by decide) (by decide) (by decide) (by decide) (by decide) (by decide)).1
     (by decide)⟩

/-- C7 counterexample: at the notebook's loop bound `n_qubits = 2`, calling
`apply_layer` with a 2-entry gate list and a 3-entry angle list (unequal
lengths) raises nothing and queues operations — there is no eager
invalid-argument rejection. -/
theorem apply_layer_cex :
    (apply_layer 2 [GateChoice.RX, GateChoice.RY] ([0, 1, 2] : List ℚ)).2 = none ∧
    (apply_layer 2 [GateChoice.RX, GateChoice.RY] ([0, 1, 2] : List ℚ)).1 ≠ [] ∧
    ([GateChoice.RX, GateChoice.RY].length ≠ ([0, 1, 2] : List ℚ).length) := by
  decide

/-- C7 amended: `apply_layer` performs no length validation.  It applies, for
each qubit index below `n_qubits`, the indexed gate with the indexed angle:
when both sequences have at least `n_qubits` entries it succeeds even if
their lengths differ (extra entries are silently ignored), and when either is
shorter than `n_qubits` an index error is raised only on reaching the first
out-of-range index, after the earlier rotations have already been applied. -/
theorem apply_layer_no_validation (n : Nat) (gates : List GateChoice)
    (weights : List ℚ) :
    (n ≤ gates.length → n ≤ weights.length →
      apply_layer n gates weights = (layer_ops n gates weights, none)) ∧
    (min gates.length weights.length < n →
      (apply_layer n gates weights).2 = some "IndexError" ∧
      (apply_layer n gates weights).1.length = min gates.length weights.length) := by
  constructor
  · exact fun h1 h2 => apply_layer_in_range n gates weights h1 h2
  · intro h
    unfold apply_layer
    rw [rotLoop_out_of_range gates weights n 0 (by omega) (by omega)]
    simp

/-- Witness for C7 (amended): with both lists long enough the layer is queued
without error, and with a short angle list the call fails with an index error
after the in-range rotations. -/
theorem apply_layer_no_validation_witness :
    (2 ≤ [GateChoice.RX, GateChoice.RY].length ∧ 2 ≤ ([0, 1] : List ℚ).length ∧
      apply_layer 2 [GateChoice.RX, GateChoice.RY] ([0, 1] : List ℚ) =
        (layer_ops 2 [GateChoice.RX, GateChoice.RY] ([0, 1] : List ℚ), none)) ∧
    (min [GateChoice.RX, GateChoice.RY].length ([5] : List ℚ).length < 3 ∧
      (apply_layer 3 [GateChoice.RX, GateChoice.RY] ([5] : List ℚ)).2 =
        some "IndexError" ∧
      (apply_layer 3 [GateChoice.RX, GateChoice.RY] ([5] : List ℚ)).1.length =
        min [GateChoice.RX, GateChoice.RY].length ([5] : List ℚ).length) :=
  ⟨⟨by decide, by decide,
    (apply_layer_no_validation 2 [GateChoice.RX, GateChoice.RY] [0, 1]).1
      (by decide) (by decide)⟩,
   ⟨by decide,
    (apply_layer_no_validation 3 [GateChoice.RX, GateChoice.RY] [5]).2 (by decide)⟩⟩

end LayerwiseLearning
